import Mathlib

/-!
Shallow embedding of the core of the automatic-parking-system-fuzzy
repository (fuzzy inference engine, genetic trajectory optimizer,
trajectory tracker, hybrid blending), with theorems checking the
specification's claims against the code.

Python floats are modelled as exact rationals; Python dicts are modelled
as association lists in insertion order; a computation that would raise
an exception is modelled with Option (none = raised).
-/

namespace AutoParking

/-- np.clip(x, lo, hi): clamp x into [lo, hi]. -/
def np_clip (x lo hi : ℚ) : ℚ := min (max x lo) hi

/-! ## GeneticAlgorithm (src/genetic_algorithm.py) -/

/-- GeneticAlgorithm._calculate_bits (lines 49-53):
`max(int(np.ceil(np.log2((max_val - min_val) / precision))), 8)`.
For a rational x, the integer `ceil(log2 x)` clamped below at 8 equals
`max (Nat.clog 2 (Nat.ceil x)) 8`: for x > 1 the least k with `2 ^ k >= x`
is the least k with `2 ^ k >= ceil x`, which is `Nat.clog 2 (ceil x)`;
for x <= 1 the source value is <= 0 and the max picks 8, as does
`Nat.clog 2 n = 0` for `n <= 1`. -/
def calculate_bits (min_val max_val precision : ℚ) : ℕ :=
  let range_size := max_val - min_val
  let num_intervals := range_size / precision
  max (Nat.clog 2 ⌈num_intervals⌉₊) 8

/-- Fixed-width big-endian bit list: models `format(int_value, f"0{bits}b")`
producing one list entry per character. -/
def nat_to_bits (n : ℕ) : ℕ → List ℕ
  | 0 => []
  | w + 1 => n / 2 ^ w % 2 :: nat_to_bits n w

/-- `int(''.join(map(str, binary)), 2)`: big-endian bit list to the integer. -/
def bits_to_nat (l : List ℕ) : ℕ := l.foldl (fun acc b => acc * 2 + b) 0

/-- GeneticAlgorithm._encode_parameter (lines 55-63). Python `int()` truncates
toward zero; the clipped value times `max_int` is nonnegative, so truncation
is the floor. -/
def encode_parameter (value min_val max_val : ℚ) (bits : ℕ) : List ℕ :=
  let normalized := (value - min_val) / (max_val - min_val)
  let clipped := np_clip normalized 0 1
  let max_int : ℕ := 2 ^ bits - 1
  let int_value : ℕ := (⌊clipped * (max_int : ℚ)⌋).toNat
  nat_to_bits int_value bits

/-- GeneticAlgorithm._decode_parameter (lines 65-72), with the source's
explicit zero guard on `max_int`. -/
def decode_parameter (binary : List ℕ) (min_val max_val : ℚ) : ℚ :=
  let int_value := bits_to_nat binary
  let max_int : ℕ := 2 ^ binary.length - 1
  let normalized : ℚ := if 0 < max_int then (int_value : ℚ) / (max_int : ℚ) else 0
  min_val + normalized * (max_val - min_val)

/-- The per-run constants of GeneticAlgorithm.__init__ that decoding uses. -/
structure GAConfig where
  k0_min : ℚ
  k0_max : ℚ
  k1_min : ℚ
  k1_max : ℚ
  k0_bits : ℕ
  k1_bits : ℕ
deriving DecidableEq

/-- GeneticAlgorithm._decode_individual (lines 85-94). The source reads
`vs_binary[0]` on a chromosome of length `k0_bits + k1_bits + 1`;
`headD 0` matches that read for all well-formed chromosomes. -/
def decode_individual (cfg : GAConfig) (chromosome : List ℕ) : ℚ × ℚ × ℤ :=
  let k0_binary := chromosome.take cfg.k0_bits
  let k1_binary := (chromosome.drop cfg.k0_bits).take cfg.k1_bits
  let vs_binary := chromosome.drop (cfg.k0_bits + cfg.k1_bits)
  let k0 := decode_parameter k0_binary cfg.k0_min cfg.k0_max
  let k1 := decode_parameter k1_binary cfg.k1_min cfg.k1_max
  let vs : ℤ := if vs_binary.headD 0 = 1 then 1 else -1
  (k0, k1, vs)

/-- forced_decode inside GeneticAlgorithmParking._run_single_phase
(src/parallel_parking_ga.py:157-159): keeps the decoded k0, k1 and pins the
direction sign. -/
def forced_decode (cfg : GAConfig) (force_direction : ℤ) (chromosome : List ℕ) :
    ℚ × ℚ × ℤ :=
  let r := decode_individual cfg chromosome
  (r.1, r.2.1, force_direction)

/-- The 1e-10 shift used by _roulette_wheel_selection. -/
def epsilon_ga : ℚ := 1 / 10 ^ 10

/-- `[f - min_fitness + 1e-10 for f in fitness]` (line 205). -/
def adjusted_fitness (fitness : List ℚ) (min_fitness : ℚ) : List ℚ :=
  fitness.map (fun f => f - min_fitness + epsilon_ga)

/-- Which branch GeneticAlgorithm._roulette_wheel_selection takes, with the
probability vector computed in the weighted branch. -/
inductive SelectionOutcome where
  | uniformFallback : SelectionOutcome
  | weighted : List ℚ → SelectionOutcome
deriving DecidableEq

/-- GeneticAlgorithm._roulette_wheel_selection (lines 203-214), with the random
draw abstracted away: the function returns which branch selects the individual
and the probabilities of the weighted branch. `none` models the ValueError
`min()` raises on an empty population. -/
def roulette_wheel_selection (fitness : List ℚ) : Option SelectionOutcome :=
  match fitness with
  | [] => none
  | f :: fs =>
    let min_fitness := fs.foldl min f
    let adjusted := adjusted_fitness fitness min_fitness
    let total_fitness := adjusted.sum
    if total_fitness < epsilon_ga then some SelectionOutcome.uniformFallback
    else some (SelectionOutcome.weighted (adjusted.map (fun a => a / total_fitness)))

/-- One generation of best-individual bookkeeping in GeneticAlgorithm.run
(lines 257-260): `fitness[np.argmax(fitness)]` is the maximum fitness value
and the stored best updates only when strictly beaten. `none` models the
initial `float("-inf")`. -/
def update_best (best : Option ℚ) (fitness : List ℚ) : Option ℚ :=
  match fitness.max? with
  | none => best
  | some m =>
    match best with
    | none => some m
    | some b => if b < m then some m else some b

/-- best_fitness_history accumulation across GeneticAlgorithm.run generations
(line 263): after each generation's fitness evaluation the running best is
appended negated (stored as a positive cost). Each inner list is one
generation's fitness values; the source never reaches `np.argmax` of an empty
population, so the `none` branch is unreachable for nonempty generations. -/
def best_fitness_history (best : Option ℚ) : List (List ℚ) → List ℚ
  | [] => []
  | g :: gs =>
    match update_best best g with
    | none => best_fitness_history best gs
    | some b => -b :: best_fitness_history (some b) gs

/-! ## GeneticAlgorithmParking._combine_phases (src/parallel_parking_ga.py) -/

/-- The fields of a single-phase GeneticAlgorithm.run result dictionary that
_combine_phases reads. -/
structure PhaseResult where
  k0 : ℚ
  k1 : ℚ
  vs : ℤ
  path_length : ℚ
  max_steering : ℚ
  has_collision : Bool
  trajectory : List (ℚ × ℚ × ℚ)
  fitness_history : List ℚ
deriving DecidableEq

/-- The dictionary returned by GeneticAlgorithmParking._combine_phases. -/
structure CombinedResult where
  phase1 : PhaseResult
  phase2 : PhaseResult
  trajectory : List (ℚ × ℚ × ℚ)
  path_length : ℚ
  max_steering : ℚ
  k0_phase1 : ℚ
  k1_phase1 : ℚ
  k0_phase2 : ℚ
  k1_phase2 : ℚ
  intermediate_point : Option (ℚ × ℚ × ℚ)
  fitness_history : List ℚ
  has_collision : Bool
deriving DecidableEq

/-- GeneticAlgorithmParking._combine_phases (src/parallel_parking_ga.py:171-186).
`phase1['trajectory'][-1] if phase1['trajectory'] else None` is `getLast?`. -/
def combine_phases (phase1 phase2 : PhaseResult) : CombinedResult :=
  ⟨phase1, phase2,
   phase1.trajectory ++ phase2.trajectory,
   phase1.path_length + phase2.path_length,
   max phase1.max_steering phase2.max_steering,
   phase1.k0, phase1.k1, phase2.k0, phase2.k1,
   phase1.trajectory.getLast?,
   phase1.fitness_history ++ phase2.fitness_history,
   phase1.has_collision || phase2.has_collision⟩

/-! ## FuzzyVariable and FuzzyInferenceSystem (src/fuzzy_centered.py) -/

/-- np.linspace(lo, hi, n): n evenly spaced samples including both endpoints
(`lo + i * (hi - lo) / (n - 1)`); numpy returns `[lo]` for n = 1. -/
def np_linspace (lo hi : ℚ) (n : ℕ) : List ℚ :=
  if n ≤ 1 then (List.range n).map (fun _ => lo)
  else (List.range n).map (fun i => lo + (hi - lo) * i / ((n : ℚ) - 1))

/-- FuzzyVariable (lines 10-16): name dropped (it is the key under which the
variable is registered), universe derived from the stored bounds and
resolution, terms as an insertion-ordered association list of sampled
membership arrays. -/
structure FuzzyVariable where
  min_val : ℚ
  max_val : ℚ
  resolution : ℕ
  terms : List (String × List ℚ)
deriving DecidableEq

/-- `self.universe = np.linspace(self.min_val, self.max_val, resolution)`. -/
def FuzzyVariable.universe (v : FuzzyVariable) : List ℚ :=
  np_linspace v.min_val v.max_val v.resolution

/-- The running state of `np.abs(universe - value).argmin()`: np.argmin keeps
the first occurrence of the minimum, so the best index is replaced only on a
strict decrease. -/
def argmin_abs_aux (c : ℚ) : List ℚ → ℕ → ℕ → ℚ → ℕ
  | [], _, best_idx, _ => best_idx
  | x :: xs, i, best_idx, best_val =>
    if |x - c| < best_val then argmin_abs_aux c xs (i + 1) i |x - c|
    else argmin_abs_aux c xs (i + 1) best_idx best_val

/-- `np.abs(l - c).argmin()` (first index of minimal absolute difference). -/
def argmin_abs (c : ℚ) : List ℚ → ℕ
  | [] => 0
  | x :: xs => argmin_abs_aux c xs 1 0 |x - c|

/-- FuzzyVariable.fuzzify (lines 66-75). Membership arrays built by add_term
have exactly the universe's length, so the `getD idx 0` read is `mf[idx]`. -/
def FuzzyVariable.fuzzify (v : FuzzyVariable) (crisp_value : ℚ) : List (String × ℚ) :=
  let c := np_clip crisp_value v.min_val v.max_val
  let idx := argmin_abs c v.universe
  v.terms.map (fun t => (t.1, t.2.getD idx 0))

/-- FuzzyRule (lines 77-80): dict iteration order is insertion order, so the
antecedent and consequent clause dicts become association lists. -/
structure FuzzyRule where
  antecedents : List (String × String)
  consequents : List (String × String)
deriving DecidableEq

/-- FuzzyInferenceSystem (lines 82-97): registered inputs, outputs and the
ordered rule list. -/
structure FuzzyInferenceSystem where
  inputs : List (String × FuzzyVariable)
  outputs : List (String × FuzzyVariable)
  rules : List FuzzyRule
deriving DecidableEq

/-- The fuzzification loop of FuzzyInferenceSystem.infer (lines 101-104):
`self.inputs[input_name]` raises KeyError on an unregistered key, which is
modelled as none. -/
def fuzzify_inputs (inputs : List (String × FuzzyVariable)) :
    List (String × ℚ) → Option (List (String × List (String × ℚ)))
  | [] => some []
  | (input_name, input_value) :: rest =>
    match inputs.lookup input_name with
    | none => none
    | some input_var =>
      match fuzzify_inputs inputs rest with
      | none => none
      | some tail => some ((input_name, input_var.fuzzify input_value) :: tail)

/-- The rule-activation fold of infer (lines 116-120): a clause whose variable
is not among the fuzzified inputs, or whose term is not defined for that
variable, leaves the running activation unchanged. -/
def rule_activation_from (fuzzified : List (String × List (String × ℚ)))
    (activation : ℚ) : List (String × String) → ℚ
  | [] => activation
  | (antecedent_var, antecedent_term) :: rest =>
    match fuzzified.lookup antecedent_var with
    | none => rule_activation_from fuzzified activation rest
    | some memberships =>
      match memberships.lookup antecedent_term with
      | none => rule_activation_from fuzzified activation rest
      | some membership =>
        rule_activation_from fuzzified (min activation membership) rest

/-- A rule's activation in infer: the fold starting from 1.0. -/
def rule_activation (fuzzified : List (String × List (String × ℚ)))
    (antecedents : List (String × String)) : ℚ :=
  rule_activation_from fuzzified 1 antecedents

/-- np.minimum(activation, consequent_mf): elementwise min of a scalar with an
array. -/
def np_minimum_scalar (activation : ℚ) (mf : List ℚ) : List ℚ :=
  mf.map (fun m => min activation m)

/-- np.maximum of two arrays; all arrays aggregated for one output have that
output universe's length, so zipWith never truncates in the source's uses. -/
def np_maximum (a b : List ℚ) : List ℚ := List.zipWith max a b

/-- The aggregated membership array one output holds after infer's rule loop
(lines 110-129). The `aggregated` dict is keyed by output name and each
consequent clause updates exactly its own variable's entry (the source guards
`consequent_var in self.outputs` and `consequent_term in output_var.terms`),
so per output the loop is a fold over rules and their matching clauses. -/
def aggregate_output (fuzzified : List (String × List (String × ℚ)))
    (rules : List FuzzyRule) (output_name : String) (output_var : FuzzyVariable) :
    List ℚ :=
  rules.foldl
    (fun aggregated rule =>
      let activation := rule_activation fuzzified rule.antecedents
      rule.consequents.foldl
        (fun agg clause =>
          if clause.1 = output_name then
            match output_var.terms.lookup clause.2 with
            | none => agg
            | some consequent_mf =>
              np_maximum agg (np_minimum_scalar activation consequent_mf)
          else agg)
        aggregated)
    (List.replicate output_var.universe.length 0)

/-- Centroid defuzzification of one output (lines 133-142):
`np.sum(universe * aggregated_mf) / np.sum(aggregated_mf)`, falling back to
the domain midpoint when the denominator is zero. -/
def defuzzify_output (output_var : FuzzyVariable) (aggregated_mf : List ℚ) : ℚ :=
  let numerator := (List.zipWith (fun u a => u * a) output_var.universe aggregated_mf).sum
  let denominator := aggregated_mf.sum
  if denominator ≠ 0 then numerator / denominator
  else (output_var.min_val + output_var.max_val) / 2

/-- FuzzyInferenceSystem.infer (lines 99-144): fuzzify all inputs (none models
the KeyError on an unknown input key), then aggregate and defuzzify every
output in registration order. -/
def infer (fis : FuzzyInferenceSystem) (input_values : List (String × ℚ)) :
    Option (List (String × ℚ)) :=
  match fuzzify_inputs fis.inputs input_values with
  | none => none
  | some fuzzified =>
    some (fis.outputs.map
      (fun o => (o.1, defuzzify_output o.2 (aggregate_output fuzzified fis.rules o.1 o.2))))

/-! ## TrajectoryTracker (src/hybrid_system.py) -/

/-- The tracker state get_reference_point reads: the stored path and the last
matched index. -/
structure TrajectoryTracker where
  trajectory : List (ℚ × ℚ × ℚ)
  progress : ℕ
deriving DecidableEq

/-- self.lookahead_distance, fixed to 60.0 in TrajectoryTracker.__init__. -/
def lookahead_distance : ℚ := 60

/-- Squared Euclidean distance. The source compares `math.sqrt` values; sqrt
is strictly monotone on nonnegative reals, so comparing squares decides the
same inequalities, and the squares stay rational. -/
def dist_sq (x1 y1 x2 y2 : ℚ) : ℚ := (x1 - x2) ^ 2 + (y1 - y2) ^ 2

/-- The closest-point scan of get_reference_point (lines 22-31) over the index
window, by squared distance: `min_dist` starts at infinity (none) and the best
index is replaced only on a strict decrease. -/
def closest_index_aux (traj : List (ℚ × ℚ × ℚ)) (vx vy : ℚ) :
    List ℕ → ℕ → Option ℚ → ℕ
  | [], best_idx, _ => best_idx
  | i :: is, best_idx, best_val =>
    let p := traj.getD i (0, 0, 0)
    let d := dist_sq p.1 p.2.1 vx vy
    match best_val with
    | none => closest_index_aux traj vx vy is i (some d)
    | some bv =>
      if d < bv then closest_index_aux traj vx vy is i (some d)
      else closest_index_aux traj vx vy is best_idx (some bv)

/-- TrajectoryTracker.get_reference_point (lines 18-37), returning the
reference pose together with the updated progress (`self.progress =
closest_idx`). `max(0, progress - 10)` is ℕ subtraction; the window indices
all lie below the path length, so the `getD` reads are the source's list
indexing. -/
def get_reference_point (t : TrajectoryTracker) (vehicle_x vehicle_y : ℚ) :
    (ℚ × ℚ × ℚ) × ℕ :=
  match t.trajectory with
  | [] => ((vehicle_x, vehicle_y, 0), t.progress)
  | _ =>
    let len := t.trajectory.length
    let search_start := t.progress - 10
    let search_end := min len (t.progress + 50)
    let closest_idx := closest_index_aux t.trajectory vehicle_x vehicle_y
      (List.range' search_start (search_end - search_start)) t.progress none
    let base_lookahead := max 5 (⌊lookahead_distance / 4⌋).toNat
    let lookahead_idx := min (closest_idx + base_lookahead) (len - 1)
    (t.trajectory.getD lookahead_idx (0, 0, 0), closest_idx)

/-- The `while angle_error > 180: angle_error -= 360` loop of
calculate_tracking_error (lines 45-46). -/
def wrap_down (q : ℚ) : ℚ :=
  if h : 180 < q then wrap_down (q - 360) else q
termination_by (⌈(q - 180) / 360⌉).toNat
decreasing_by
  have h1 : (q - 360 - 180) / 360 = (q - 180) / 360 - 1 := by ring
  have h2 : (0 : ℚ) < (q - 180) / 360 := by
    apply div_pos <;> linarith
  have h3 : 0 < ⌈(q - 180) / 360⌉ := Int.ceil_pos.mpr h2
  rw [h1, Int.ceil_sub_one]
  omega

/-- The `while angle_error < -180: angle_error += 360` loop of
calculate_tracking_error (lines 47-48). -/
def wrap_up (q : ℚ) : ℚ :=
  if h : q < -180 then wrap_up (q + 360) else q
termination_by (⌈(-180 - q) / 360⌉).toNat
decreasing_by
  have h1 : (-180 - (q + 360)) / 360 = (-180 - q) / 360 - 1 := by ring
  have h2 : (0 : ℚ) < (-180 - q) / 360 := by
    apply div_pos <;> linarith
  have h3 : 0 < ⌈(-180 - q) / 360⌉ := Int.ceil_pos.mpr h2
  rw [h1, Int.ceil_sub_one]
  omega

/-- The dictionary TrajectoryTracker.calculate_tracking_error returns.
position_error is reported as its square (its sqrt is irrational). -/
structure TrackingError where
  position_error_sq : ℚ
  angle_error : ℚ
  reference_x : ℚ
  reference_y : ℚ
  reference_angle : ℚ
deriving DecidableEq

/-- TrajectoryTracker.calculate_tracking_error (lines 39-55): the reference
pose from get_reference_point, the position error (squared here) and the
heading error wrapped by the two while loops, first the -360 loop then the
+360 loop. -/
def calculate_tracking_error (t : TrajectoryTracker)
    (vehicle_x vehicle_y vehicle_angle : ℚ) : TrackingError :=
  let r := get_reference_point t vehicle_x vehicle_y
  let x_ref := r.1.1
  let y_ref := r.1.2.1
  let angle_ref := r.1.2.2
  let angle_error := wrap_up (wrap_down (angle_ref - vehicle_angle))
  ⟨dist_sq x_ref y_ref vehicle_x vehicle_y, angle_error, x_ref, y_ref, angle_ref⟩

/-! ## HybridParkingSystem.get_fuzzy_control (src/hybrid_system.py) -/

/-- The vehicle-state fields get_fuzzy_control reads. -/
structure VehicleState where
  x : ℚ
  y : ℚ
  angle : ℚ
  sensor_front : ℚ
  sensor_lateral : ℚ
  sensor_angle : ℚ
  sensor_depth : ℚ
deriving DecidableEq

/-- A velocity/steering command dictionary with both keys present. -/
structure Control where
  velocidade : ℚ
  angulo_direcao : ℚ
deriving DecidableEq

/-- HybridParkingSystem.get_fuzzy_control (lines 188-219). The
`_calculate_tracking_control` subcomputation mixes square roots of live
geometry into its value, so it is passed in as the command dictionary it
would return — which is everything this method reads from it. The returned
dictionary is an association list (the first branch returns the full
fuzzy-output dict); the `fuzzy_outputs['velocidade']` and
`fuzzy_outputs['angulo_direcao']` reads raise KeyError when the key is
missing, modelled as none. -/
def get_fuzzy_control (fis : FuzzyInferenceSystem) (ga_optimized use_tracking : Bool)
    (tracking_control : Control) (vehicle : VehicleState) :
    Option (List (String × ℚ)) :=
  let fuzzy_inputs : List (String × ℚ) :=
    [("distancia_frontal", vehicle.sensor_front),
     ("distancia_lateral", vehicle.sensor_lateral),
     ("angulo_veiculo", vehicle.sensor_angle),
     ("profundidade_vaga", vehicle.sensor_depth)]
  if !ga_optimized || !use_tracking then
    infer fis fuzzy_inputs
  else
    match infer fis fuzzy_inputs with
    | none => none
    | some fuzzy_outputs =>
      match fuzzy_outputs.lookup "velocidade", fuzzy_outputs.lookup "angulo_direcao" with
      | some fv, some fs =>
        if vehicle.sensor_front < 15 then
          some [("velocidade", fv * 0.7 + tracking_control.velocidade * 0.3),
                ("angulo_direcao", fs * 0.7 + tracking_control.angulo_direcao * 0.3)]
        else if vehicle.sensor_front < 30 then
          some [("velocidade", tracking_control.velocidade * 0.75 + fv * 0.25),
                ("angulo_direcao", tracking_control.angulo_direcao * 0.8 + fs * 0.2)]
        else
          some [("velocidade", tracking_control.velocidade * 0.95 + fv * 0.05),
                ("angulo_direcao", tracking_control.angulo_direcao * 0.9 + fs * 0.1)]
      | _, _ => none

/-! ## Concrete fixtures used to instantiate the theorems -/

/-- A minimal inference system whose single rule's antecedent references the
unregistered variable name "bogus". -/
def cex_fis : FuzzyInferenceSystem :=
  ⟨[("a", ⟨0, 10, 3, [("low", [1, 0, 0])]⟩)],
   [("o", ⟨0, 10, 3, [("t", [0, 0, 1])]⟩)],
   [⟨[("bogus", "x")], [("o", "t")]⟩]⟩

/-- The velocity output variable of the small test system. -/
def test_vel_var : FuzzyVariable := ⟨0, 100, 3, [("parado", [1, 0, 0])]⟩

/-- A small rule-free inference system with the four sensor inputs and the two
control outputs of the hybrid controller. -/
def test_fis : FuzzyInferenceSystem :=
  ⟨[("distancia_frontal", ⟨0, 400, 3, [("perto", [1, 0, 0])]⟩),
    ("distancia_lateral", ⟨-80, 80, 3, [("centrado", [0, 1, 0])]⟩),
    ("angulo_veiculo", ⟨-90, 90, 3, [("alinhado", [0, 1, 0])]⟩),
    ("profundidade_vaga", ⟨0, 150, 3, [("centro", [0, 1, 0])]⟩)],
   [("velocidade", test_vel_var),
    ("angulo_direcao", ⟨-40, 40, 3, [("reto", [0, 1, 0])]⟩)],
   []⟩

/-- Sensor readings used to instantiate the fuzzy-side theorems. -/
def test_inputs : List (String × ℚ) :=
  [("distancia_frontal", 100), ("distancia_lateral", 0),
   ("angulo_veiculo", 0), ("profundidade_vaga", 70)]

/-- The fuzzified form of test_inputs under test_fis. -/
def test_fuzzified : List (String × List (String × ℚ)) :=
  (fuzzify_inputs test_fis.inputs test_inputs).getD []

/-- A vehicle snapshot with forward sensor distance 10 (the innermost blend
band). -/
def test_vehicle : VehicleState := ⟨0, 0, 0, 10, 0, 0, 70⟩

/-! ## Helper lemmas for the genetic-algorithm claims -/

theorem update_best_some (b : ℚ) (g : List ℚ) :
    ∃ c, update_best (some b) g = some c ∧ b ≤ c := by
  cases h : g.max? with
  | none => exact ⟨b, by simp [update_best, h], le_refl b⟩
  | some m =>
    by_cases hbm : b < m
    · exact ⟨m, by simp [update_best, h, hbm], le_of_lt hbm⟩
    · exact ⟨b, by simp [update_best, h, hbm], le_refl b⟩

theorem best_fitness_history_chain (gens : List (List ℚ)) :
    ∀ b : ℚ, List.Chain' (fun x y => y ≤ x) (best_fitness_history (some b) gens) ∧
      ∀ y ∈ (best_fitness_history (some b) gens).head?, y ≤ -b := by
  induction gens with
  | nil => intro b; simp [best_fitness_history]
  | cons g gs ih =>
    intro b
    obtain ⟨c, hc, hbc⟩ := update_best_some b g
    have hrw : best_fitness_history (some b) (g :: gs) =
        -c :: best_fitness_history (some c) gs := by
      simp [best_fitness_history, hc]
    obtain ⟨ihchain, ihhead⟩ := ih c
    constructor
    · rw [hrw]
      refine List.chain'_cons'.mpr ⟨?_, ihchain⟩
      intro y hy
      exact le_trans (ihhead y hy) (by linarith)
    · rw [hrw]
      intro y hy
      simp only [List.head?_cons, Option.mem_def, Option.some.injEq] at hy
      subst hy
      linarith

/-- C2: for every run of the genetic optimizer, the recorded best-fitness
history (stored as positive cost) is non-increasing across generations:
best_fitness_history[i+1] <= best_fitness_history[i]. -/
theorem C2_best_fitness_history_monotone (gens : List (List ℚ)) (i : ℕ)
    (hne : ∀ g ∈ gens, g ≠ []) (hi : i + 1 < (best_fitness_history none gens).length) :
    (best_fitness_history none gens).getD (i + 1) 0 ≤
      (best_fitness_history none gens).getD i 0 := by
  have hchain : List.Chain' (fun x y => y ≤ x) (best_fitness_history none gens) := by
    cases gens with
    | nil => simp [best_fitness_history]
    | cons g gs =>
      have hg : g ≠ [] := hne g (List.mem_cons_self g gs)
      cases hm : g.max? with
      | none => exact absurd (List.max?_eq_none_iff.mp hm) hg
      | some m =>
        have hrw : best_fitness_history none (g :: gs) =
            -m :: best_fitness_history (some m) gs := by
          simp [best_fitness_history, update_best, hm]
        rw [hrw]
        obtain ⟨ihchain, ihhead⟩ := best_fitness_history_chain gs m
        exact List.chain'_cons'.mpr ⟨fun y hy => ihhead y hy, ihchain⟩
  have hlen : i < (best_fitness_history none gens).length - 1 := by omega
  have hstep := List.chain'_iff_get.mp hchain i hlen
  rw [List.getD_eq_get _ _ hi, List.getD_eq_get _ _ (by omega : i < (best_fitness_history none gens).length)]
  exact hstep

/-- C4: GeneticAlgorithmParking._combine_phases concatenates the two phase
trajectories, adds the path lengths, takes the maximum of the two peak
steering angles and ORs the collision flags. -/
theorem C4_combine_phases_invariants (phase1 phase2 : PhaseResult) :
    (combine_phases phase1 phase2).trajectory = phase1.trajectory ++ phase2.trajectory ∧
    (combine_phases phase1 phase2).path_length = phase1.path_length + phase2.path_length ∧
    (combine_phases phase1 phase2).max_steering = max phase1.max_steering phase2.max_steering ∧
    (combine_phases phase1 phase2).has_collision
      = (phase1.has_collision || phase2.has_collision) :=
  ⟨rfl, rfl, rfl, rfl⟩

/-- C9: under a forced-direction policy of +1 or -1, decoding yields exactly
the forced sign while the decoded k0 and k1 agree with the unforced decode. -/
theorem C9_forced_direction_decode (cfg : GAConfig) (force_direction : ℤ)
    (chromosome : List ℕ) (h : force_direction = 1 ∨ force_direction = -1) :
    forced_decode cfg force_direction chromosome =
      ((decode_individual cfg chromosome).1,
       (decode_individual cfg chromosome).2.1,
       force_direction) :=
  rfl

/-- Witness for C9 at a concrete chromosome whose trailing direction bit is 1
but whose forced direction is -1. -/
theorem C9_witness :
    ((-1 : ℤ) = 1 ∨ (-1 : ℤ) = -1) ∧
    forced_decode ⟨-2, 2, -2, 2, 2, 2⟩ (-1) [1, 0, 1, 1, 1] =
      ((decode_individual ⟨-2, 2, -2, 2, 2, 2⟩ [1, 0, 1, 1, 1]).1,
       (decode_individual ⟨-2, 2, -2, 2, 2, 2⟩ [1, 0, 1, 1, 1]).2.1,
       (-1 : ℤ)) :=
  ⟨Or.inr rfl,
   C9_forced_direction_decode ⟨-2, 2, -2, 2, 2, 2⟩ (-1) [1, 0, 1, 1, 1] (Or.inr rfl)⟩

/-- C10: an input mapping containing a key that is not a registered input
variable makes infer raise a KeyError (modelled: infer returns none); the
never-raises behaviour covers only unknown names inside rule clauses. -/
theorem C10_unknown_input_key_raises (fis : FuzzyInferenceSystem)
    (input_values : List (String × ℚ)) (name : String) (value : ℚ)
    (hmem : (name, value) ∈ input_values)
    (hunknown : fis.inputs.lookup name = none) :
    infer fis input_values = none := by
  suffices h : fuzzify_inputs fis.inputs input_values = none by
    simp [infer, h]
  induction input_values with
  | nil => cases hmem
  | cons p rest ih =>
    obtain ⟨pn, pv⟩ := p
    rcases List.mem_cons.mp hmem with heq | hmem2
    · obtain ⟨h1, h2⟩ := Prod.mk.injEq .. ▸ heq
      subst h1
      simp [fuzzify_inputs, hunknown]
    · cases hlk : fis.inputs.lookup pn with
      | none => simp [fuzzify_inputs, hlk]
      | some var => simp [fuzzify_inputs, hlk, ih hmem2]

/-- Witness for C10: the key "zzz" is not an input of cex_fis and infer
returns none on a mapping containing it. -/
theorem C10_witness :
    (("zzz", (1 : ℚ)) ∈ [("zzz", (1 : ℚ))]) ∧
    cex_fis.inputs.lookup "zzz" = none ∧
    infer cex_fis [("zzz", 1)] = none :=
  ⟨by decide, by decide,
   C10_unknown_input_key_raises cex_fis [("zzz", 1)] "zzz" 1 (by decide) (by decide)⟩

/-- The fuzzification loop succeeds whenever every key of the input mapping is
a registered input variable. -/
theorem fuzzify_inputs_total (inputs : List (String × FuzzyVariable)) :
    ∀ input_values : List (String × ℚ),
      (∀ p ∈ input_values, (inputs.lookup p.1).isSome) →
      ∃ fz, fuzzify_inputs inputs input_values = some fz := by
  intro input_values
  induction input_values with
  | nil => exact fun _ => ⟨[], rfl⟩
  | cons p rest ih =>
    intro hkeys
    obtain ⟨pn, pv⟩ := p
    have hp : (inputs.lookup pn).isSome := hkeys (pn, pv) (List.mem_cons_self _ _)
    obtain ⟨var, hvar⟩ := Option.isSome_iff_exists.mp hp
    obtain ⟨fz, hfz⟩ := ih (fun q hq => hkeys q (List.mem_cons_of_mem _ hq))
    exact ⟨(pn, var.fuzzify pv) :: fz, by simp [fuzzify_inputs, hvar, hfz]⟩

/-- C1 counterexample: in infer, the single rule of cex_fis references only
the unknown variable name "bogus", yet its activation is 1 (not 0) and it
drives the output "o" to 10 — not the midpoint 5 that a zero contribution
would have produced. -/
theorem C1_counterexample :
    rule_activation ((fuzzify_inputs cex_fis.inputs [("a", 0)]).getD []) [("bogus", "x")] = 1 ∧
    infer cex_fis [("a", 0)] = some [("o", 10)] ∧
    ((10 : ℚ) ≠ (0 + 10) / 2) := by
  refine ⟨by decide, ?_, by norm_num⟩
  have hrange3 : List.range 3 = [0, 1, 2] := by decide
  have hb1 : ("bogus" == "a") = false := by decide
  have hrep : List.replicate 3 (0 : ℚ) = [0, 0, 0] := by decide
  norm_num [infer, cex_fis, fuzzify_inputs, FuzzyVariable.fuzzify, FuzzyVariable.universe,
    np_linspace, hrange3, np_clip, argmin_abs, argmin_abs_aux, aggregate_output,
    rule_activation, rule_activation_from, np_maximum, np_minimum_scalar, defuzzify_output,
    List.lookup, hb1, hrep, min_def, max_def]

/-- C1 (amended): in infer, an antecedent clause referencing an unknown
variable or an unknown term is skipped — it leaves the rule's activation
unchanged, so the rule still fires with the activation of its recognized
clauses (1.0 when none are recognized) — and inference never raises as long
as every key of the input mapping itself is registered. -/
theorem C1_unknown_clause_skipped_never_raises
    (fuzzified : List (String × List (String × ℚ)))
    (v t : String) (rest : List (String × String)) (a : ℚ)
    (fis : FuzzyInferenceSystem) (input_values : List (String × ℚ))
    (hunknown : fuzzified.lookup v = none ∨
      ∃ ms, fuzzified.lookup v = some ms ∧ ms.lookup t = none)
    (hkeys : ∀ p ∈ input_values, (fis.inputs.lookup p.1).isSome) :
    rule_activation_from fuzzified a ((v, t) :: rest) =
      rule_activation_from fuzzified a rest ∧
    ∃ outs, infer fis input_values = some outs := by
  constructor
  · rcases hunknown with h | ⟨ms, h1, h2⟩
    · simp [rule_activation_from, h]
    · simp [rule_activation_from, h1, h2]
  · obtain ⟨fz, hfz⟩ := fuzzify_inputs_total fis.inputs input_values hkeys
    exact ⟨fis.outputs.map
      (fun o => (o.1, defuzzify_output o.2 (aggregate_output fz fis.rules o.1 o.2))),
      by simp [infer, hfz]⟩

/-- Witness for C1: the clause ("bogus", "x") is unknown in the fuzzified
inputs of cex_fis, is skipped by the activation fold, and inference still
returns a result. -/
theorem C1_witness :
    (test_fuzzified.lookup "bogus" = none ∨
      ∃ ms, test_fuzzified.lookup "bogus" = some ms ∧ ms.lookup "x" = none) ∧
    (∀ p ∈ test_inputs, (test_fis.inputs.lookup p.1).isSome) ∧
    (rule_activation_from test_fuzzified 1 [("bogus", "x")] =
      rule_activation_from test_fuzzified 1 [] ∧
    ∃ outs, infer test_fis test_inputs = some outs) :=
  ⟨Or.inl (by decide), by decide,
   C1_unknown_clause_skipped_never_raises test_fuzzified "bogus" "x" [] 1
     test_fis test_inputs (Or.inl (by decide)) (by decide)⟩

/-- C7: if an output's aggregated membership array sums to zero (no rule
fired for it, so the centroid denominator is zero), infer returns the
midpoint of that output's domain for it. -/
theorem C7_zero_denominator_midpoint (fis : FuzzyInferenceSystem)
    (input_values : List (String × ℚ))
    (fuzzified : List (String × List (String × ℚ)))
    (output_name : String) (output_var : FuzzyVariable)
    (hfz : fuzzify_inputs fis.inputs input_values = some fuzzified)
    (hout : (output_name, output_var) ∈ fis.outputs)
    (hzero : (aggregate_output fuzzified fis.rules output_name output_var).sum = 0) :
    ∃ outs, infer fis input_values = some outs ∧
      (output_name, (output_var.min_val + output_var.max_val) / 2) ∈ outs := by
  refine ⟨fis.outputs.map
      (fun o => (o.1, defuzzify_output o.2 (aggregate_output fuzzified fis.rules o.1 o.2))),
    by simp [infer, hfz], ?_⟩
  apply List.mem_map.mpr
  refine ⟨(output_name, output_var), hout, ?_⟩
  simp [defuzzify_output, hzero]

/-- Witness for C7: in the rule-free test system no rule fires for
"velocidade", and infer reports its domain midpoint 50. -/
theorem C7_witness :
    fuzzify_inputs test_fis.inputs test_inputs = some test_fuzzified ∧
    ("velocidade", test_vel_var) ∈ test_fis.outputs ∧
    (aggregate_output test_fuzzified test_fis.rules "velocidade" test_vel_var).sum = 0 ∧
    ∃ outs, infer test_fis test_inputs = some outs ∧
      ("velocidade", (test_vel_var.min_val + test_vel_var.max_val) / 2) ∈ outs :=
  ⟨rfl, by decide, by simp [aggregate_output, test_fis, List.sum_replicate],
   C7_zero_denominator_midpoint test_fis test_inputs test_fuzzified "velocidade" test_vel_var
     rfl (by decide) (by simp [aggregate_output, test_fis, List.sum_replicate])⟩

/-- The first wrap loop never leaves a value above 180. -/
theorem wrap_down_le_180 (q : ℚ) : wrap_down q ≤ 180 := by
  induction q using wrap_down.induct with
  | case1 q h ih => rw [wrap_down]; simpa [h] using ih
  | case2 q h => rw [wrap_down]; simpa [h] using le_of_not_lt h

/-- The second wrap loop never returns a value below -180. -/
theorem wrap_up_ge_neg180 (q : ℚ) : -180 ≤ wrap_up q := by
  induction q using wrap_up.induct with
  | case1 q h ih => rw [wrap_up]; simpa [h] using ih
  | case2 q h => rw [wrap_up]; simpa [h] using le_of_not_lt h

/-- The second wrap loop preserves an upper bound of 180. -/
theorem wrap_up_le_180 (q : ℚ) : q ≤ 180 → wrap_up q ≤ 180 := by
  induction q using wrap_up.induct with
  | case1 q h ih =>
    intro _
    rw [wrap_up]
    simp only [h, dif_pos]
    exact ih (by linarith)
  | case2 q h =>
    intro hq
    rw [wrap_up]
    simpa [h] using hq

/-- C5 (amended): the tracking angle error always lies in the closed
interval [-180, 180] (the endpoint -180 is reachable, see the
counterexample, so the claimed half-open (-180, 180] is off by one
endpoint). -/
theorem C5_angle_error_closed_range (t : TrajectoryTracker)
    (vehicle_x vehicle_y vehicle_angle : ℚ) :
    -180 ≤ (calculate_tracking_error t vehicle_x vehicle_y vehicle_angle).angle_error ∧
    (calculate_tracking_error t vehicle_x vehicle_y vehicle_angle).angle_error ≤ 180 := by
  have h1 : (calculate_tracking_error t vehicle_x vehicle_y vehicle_angle).angle_error
      = wrap_up (wrap_down
          ((get_reference_point t vehicle_x vehicle_y).1.2.2 - vehicle_angle)) := rfl
  rw [h1]
  exact ⟨wrap_up_ge_neg180 _, wrap_up_le_180 _ (wrap_down_le_180 _)⟩

/-- C5 counterexample: with a one-point path of heading 0 and vehicle heading
180, the returned angle error is exactly -180, which is outside the claimed
half-open interval (-180, 180]. -/
theorem C5_counterexample :
    (calculate_tracking_error ⟨[(0, 0, 0)], 0⟩ 0 0 180).angle_error = -180 ∧
    ¬(-180 < (calculate_tracking_error ⟨[(0, 0, 0)], 0⟩ 0 0 180).angle_error) := by
  have hfloor : (⌊lookahead_distance / 4⌋).toNat = 15 := by
    have h604 : lookahead_distance / 4 = (15 : ℚ) := by norm_num [lookahead_distance]
    rw [h604]
    simp
  have hrange : List.range' 0 1 = [0] := by decide
  have href : get_reference_point ⟨[(0, 0, 0)], 0⟩ 0 0 = ((0, 0, 0), 0) := by
    simp [get_reference_point, closest_index_aux, hfloor, hrange]
  have hwd : wrap_down (-180 : ℚ) = -180 := by
    rw [wrap_down]; norm_num
  have hwu : wrap_up (-180 : ℚ) = -180 := by
    rw [wrap_up]; norm_num
  have hmain : (calculate_tracking_error ⟨[(0, 0, 0)], 0⟩ 0 0 180).angle_error = -180 := by
    have h1 : (calculate_tracking_error ⟨[(0, 0, 0)], 0⟩ 0 0 180).angle_error
        = wrap_up (wrap_down
            ((get_reference_point ⟨[(0, 0, 0)], 0⟩ 0 0).1.2.2 - 180)) := rfl
    rw [h1, href]
    norm_num [hwd, hwu]
  exact ⟨hmain, by rw [hmain]; norm_num⟩

/-- Folding min over a list of equal values returns that value. -/
theorem foldl_min_all_eq (c : ℚ) : ∀ l : List ℚ, (∀ x ∈ l, x = c) → l.foldl min c = c := by
  intro l
  induction l with
  | nil => intro _; rfl
  | cons x xs ih =>
    intro hall
    have hx : x = c := hall x (List.mem_cons_self _ _)
    have hxs := ih (fun y hy => hall y (List.mem_cons_of_mem _ hy))
    simp [hx, hxs]

/-- With all-equal fitness, every adjusted fitness value is exactly the
1e-10 shift. -/
theorem adjusted_fitness_all_eq (c : ℚ) : ∀ l : List ℚ, (∀ x ∈ l, x = c) →
    adjusted_fitness l c = List.replicate l.length epsilon_ga := by
  intro l
  induction l with
  | nil => intro _; rfl
  | cons x xs ih =>
    intro hall
    have hx : x = c := hall x (List.mem_cons_self _ _)
    have h2 := ih (fun y hy => hall y (List.mem_cons_of_mem _ hy))
    simp only [adjusted_fitness, List.map_cons, List.length_cons, List.replicate_succ,
      List.cons.injEq]
    exact ⟨by rw [hx]; ring, by simpa [adjusted_fitness] using h2⟩

/-- C6 counterexample: for the all-equal-fitness population [5, 5] the
adjusted total is 2e-10, not below the 1e-10 threshold, so selection computes
the probability vector [1/2, 1/2] instead of taking the uniform-fallback
branch. -/
theorem C6_counterexample :
    roulette_wheel_selection [5, 5] =
      some (SelectionOutcome.weighted [1 / 2, 1 / 2]) ∧
    roulette_wheel_selection [5, 5] ≠ some SelectionOutcome.uniformFallback := by
  have h : roulette_wheel_selection [5, 5] =
      some (SelectionOutcome.weighted [1 / 2, 1 / 2]) := by
    norm_num [roulette_wheel_selection, adjusted_fitness, epsilon_ga]
  exact ⟨h, by rw [h]; simp⟩

/-- C6 (amended): for every nonempty all-equal-fitness population the
adjusted total is n*1e-10, which is at least the 1e-10 threshold, so the
uniform-fallback branch is NOT taken; the probabilities computed by the
proportionate branch are nevertheless the uniform vector (1/n for every
individual), and the divisor is strictly positive, so no division by zero
occurs. -/
theorem C6_equal_fitness_uniform (c : ℚ) (fitness : List ℚ)
    (hne : fitness ≠ []) (hall : ∀ x ∈ fitness, x = c) :
    roulette_wheel_selection fitness =
      some (SelectionOutcome.weighted
        (List.replicate fitness.length (1 / (fitness.length : ℚ)))) ∧
    0 < (adjusted_fitness fitness c).sum := by
  cases fitness with
  | nil => exact absurd rfl hne
  | cons f fs =>
    have hf : f = c := hall f (List.mem_cons_self _ _)
    have hmin : fs.foldl min f = c := by
      rw [hf]
      exact foldl_min_all_eq c fs (fun y hy => hall y (List.mem_cons_of_mem _ hy))
    have hadj : adjusted_fitness (f :: fs) c = List.replicate (f :: fs).length epsilon_ga :=
      adjusted_fitness_all_eq c (f :: fs) hall
    have heps : (0 : ℚ) < epsilon_ga := by norm_num [epsilon_ga]
    have hlen : 0 < (f :: fs).length := Nat.succ_pos _
    have hlenq : (1 : ℚ) ≤ ((f :: fs).length : ℚ) := by exact_mod_cast hlen
    have hsum : (adjusted_fitness (f :: fs) c).sum
        = ((f :: fs).length : ℚ) * epsilon_ga := by
      rw [hadj, List.sum_replicate, nsmul_eq_mul]
    have hpos : 0 < (adjusted_fitness (f :: fs) c).sum := by
      rw [hsum]
      exact mul_pos (by linarith) heps
    have hguard : ¬((adjusted_fitness (f :: fs) c).sum < epsilon_ga) := by
      rw [hsum]
      push_neg
      exact le_mul_of_one_le_left heps.le hlenq
    have hn : ((f :: fs).length : ℚ) ≠ 0 := by positivity
    have hprobs : (adjusted_fitness (f :: fs) c).map
          (fun a => a / (adjusted_fitness (f :: fs) c).sum)
        = List.replicate (f :: fs).length (1 / ((f :: fs).length : ℚ)) := by
      rw [hsum, hadj, List.map_replicate]
      congr 1
      field_simp
      ring
    refine ⟨?_, hpos⟩
    simp only [roulette_wheel_selection, hmin]
    rw [if_neg hguard, hprobs]

/-- Witness for C6: the amended theorem applied to the concrete all-equal
population [7, 7, 7]. -/
theorem C6_witness :
    (([7, 7, 7] : List ℚ) ≠ []) ∧ (∀ x ∈ ([7, 7, 7] : List ℚ), x = 7) ∧
    (roulette_wheel_selection [7, 7, 7] =
      some (SelectionOutcome.weighted
        (List.replicate ([7, 7, 7] : List ℚ).length
          (1 / ((([7, 7, 7] : List ℚ).length : ℚ))))) ∧
    0 < (adjusted_fitness [7, 7, 7] 7).sum) :=
  ⟨by decide, by decide, C6_equal_fitness_uniform 7 [7, 7, 7] (by decide) (by decide)⟩

/-- C8: when an optimized path exists and tracking is enabled, the hybrid
controller output is the band-wise blend of fuzzy and tracking outputs
selected by the forward sensor distance (below 15: 0.7 fuzzy + 0.3 tracking;
below 30: 0.75/0.8 tracking; otherwise 0.95/0.9 tracking); otherwise it is
the raw fuzzy output. -/
theorem C8_hybrid_blend_bands (fis : FuzzyInferenceSystem)
    (ga_optimized use_tracking : Bool) (tc : Control) (vehicle : VehicleState)
    (fuzzy_outputs : List (String × ℚ)) (fv fs : ℚ)
    (hinf : infer fis [("distancia_frontal", vehicle.sensor_front),
      ("distancia_lateral", vehicle.sensor_lateral),
      ("angulo_veiculo", vehicle.sensor_angle),
      ("profundidade_vaga", vehicle.sensor_depth)] = some fuzzy_outputs)
    (hv : fuzzy_outputs.lookup "velocidade" = some fv)
    (hs : fuzzy_outputs.lookup "angulo_direcao" = some fs) :
    (ga_optimized = true → use_tracking = true →
      get_fuzzy_control fis ga_optimized use_tracking tc vehicle = some (
        if vehicle.sensor_front < 15 then
          [("velocidade", fv * 0.7 + tc.velocidade * 0.3),
           ("angulo_direcao", fs * 0.7 + tc.angulo_direcao * 0.3)]
        else if vehicle.sensor_front < 30 then
          [("velocidade", tc.velocidade * 0.75 + fv * 0.25),
           ("angulo_direcao", tc.angulo_direcao * 0.8 + fs * 0.2)]
        else
          [("velocidade", tc.velocidade * 0.95 + fv * 0.05),
           ("angulo_direcao", tc.angulo_direcao * 0.9 + fs * 0.1)])) ∧
    ((ga_optimized = false ∨ use_tracking = false) →
      get_fuzzy_control fis ga_optimized use_tracking tc vehicle = some fuzzy_outputs) := by
  constructor
  · intro hga htr
    subst hga; subst htr
    by_cases h15 : vehicle.sensor_front < 15
    · simp [get_fuzzy_control, hinf, hv, hs, h15]
    · by_cases h30 : vehicle.sensor_front < 30
      · simp [get_fuzzy_control, hinf, hv, hs, h15, h30]
      · simp [get_fuzzy_control, hinf, hv, hs, h15, h30]
  · intro h
    rcases h with h | h <;> subst h <;> simp [get_fuzzy_control, hinf]

/-- Witness for C8: the rule-free test system at forward sensor distance 10
(the innermost band), with tracking control (2, 3). -/
theorem C8_witness :
    infer test_fis [("distancia_frontal", (10 : ℚ)), ("distancia_lateral", 0),
      ("angulo_veiculo", 0), ("profundidade_vaga", 70)] =
      some [("velocidade", 50), ("angulo_direcao", 0)] ∧
    ([("velocidade", (50 : ℚ)), ("angulo_direcao", 0)].lookup "velocidade" = some 50) ∧
    ([("velocidade", (50 : ℚ)), ("angulo_direcao", 0)].lookup "angulo_direcao" = some 0) ∧
    get_fuzzy_control test_fis true true ⟨2, 3⟩ test_vehicle = some (
      if test_vehicle.sensor_front < 15 then
        [("velocidade", (50 : ℚ) * 0.7 + (2 : ℚ) * 0.3),
         ("angulo_direcao", (0 : ℚ) * 0.7 + (3 : ℚ) * 0.3)]
      else if test_vehicle.sensor_front < 30 then
        [("velocidade", (2 : ℚ) * 0.75 + (50 : ℚ) * 0.25),
         ("angulo_direcao", (3 : ℚ) * 0.8 + (0 : ℚ) * 0.2)]
      else
        [("velocidade", (2 : ℚ) * 0.95 + (50 : ℚ) * 0.05),
         ("angulo_direcao", (3 : ℚ) * 0.9 + (0 : ℚ) * 0.1)]) := by
  have hrange3 : List.range 3 = [0, 1, 2] := by decide
  have hrep : List.replicate 3 (0 : ℚ) = [0, 0, 0] := by decide
  have hb1 : ("distancia_lateral" == "distancia_frontal") = false := by decide
  have hb2 : ("angulo_veiculo" == "distancia_frontal") = false := by decide
  have hb3 : ("angulo_veiculo" == "distancia_lateral") = false := by decide
  have hb4 : ("profundidade_vaga" == "distancia_frontal") = false := by decide
  have hb5 : ("profundidade_vaga" == "distancia_lateral") = false := by decide
  have hb6 : ("profundidade_vaga" == "angulo_veiculo") = false := by decide
  have hinf : infer test_fis [("distancia_frontal", (10 : ℚ)), ("distancia_lateral", 0),
      ("angulo_veiculo", 0), ("profundidade_vaga", 70)] =
      some [("velocidade", 50), ("angulo_direcao", 0)] := by
    norm_num [infer, test_fis, test_vel_var, fuzzify_inputs, FuzzyVariable.fuzzify,
      FuzzyVariable.universe, np_linspace, hrange3, np_clip, argmin_abs, argmin_abs_aux,
      aggregate_output, defuzzify_output, List.lookup, hrep, min_def, max_def,
      hb1, hb2, hb3, hb4, hb5, hb6]
  exact ⟨hinf, by decide, by decide,
    (C8_hybrid_blend_bands test_fis true true ⟨2, 3⟩ test_vehicle
      [("velocidade", 50), ("angulo_direcao", 0)] 50 0 hinf (by decide) (by decide)).1
      rfl rfl⟩

/-- Witness for C2 at the concrete fitness generations [1], [3], [2]: the
history is [-1, -3, -3] and entry 1 is at most entry 0. -/
theorem C2_witness :
    (∀ g ∈ [[(1 : ℚ)], [3], [2]], g ≠ []) ∧
    0 + 1 < (best_fitness_history none [[(1 : ℚ)], [3], [2]]).length ∧
    (best_fitness_history none [[(1 : ℚ)], [3], [2]]).getD (0 + 1) 0 ≤
      (best_fitness_history none [[(1 : ℚ)], [3], [2]]).getD 0 0 := by
  have hlen : 0 + 1 < (best_fitness_history none [[(1 : ℚ)], [3], [2]]).length := by
    norm_num [best_fitness_history, update_best, List.max?]
  exact ⟨by decide, hlen,
    C2_best_fitness_history_monotone [[(1 : ℚ)], [3], [2]] 0 (by decide) hlen⟩

/-- The fixed-width bit string has exactly the requested width. -/
theorem nat_to_bits_length (n : ℕ) : ∀ w, (nat_to_bits n w).length = w := by
  intro w
  induction w with
  | zero => rfl
  | succ w ih => simp [nat_to_bits, ih]

/-- Folding the bits of the fixed-width string accumulates the value modulo
the width. -/
theorem nat_to_bits_foldl (n : ℕ) : ∀ (w a : ℕ),
    (nat_to_bits n w).foldl (fun acc b => acc * 2 + b) a = a * 2 ^ w + n % 2 ^ w := by
  intro w
  induction w with
  | zero => intro a; simp [nat_to_bits, Nat.mod_one]
  | succ w ih =>
    intro a
    rw [nat_to_bits, List.foldl_cons, ih]
    rw [@Nat.mod_pow_succ n 2 w]
    ring

/-- Reading back a value below the width capacity is exact. -/
theorem bits_to_nat_nat_to_bits (n w : ℕ) (h : n < 2 ^ w) :
    bits_to_nat (nat_to_bits n w) = n := by
  unfold bits_to_nat
  rw [nat_to_bits_foldl]
  simp [Nat.mod_eq_of_lt h]

/-- The quantization error of one encode/decode round trip is at most one
quantization step, (max - min) / (2^bits - 1). -/
theorem decode_encode_error_bound (v min_val max_val : ℚ) (bits : ℕ)
    (hrange : min_val < max_val) (hlo : min_val ≤ v) (hhi : v ≤ max_val)
    (hbpos : 0 < bits) :
    |decode_parameter (encode_parameter v min_val max_val bits) min_val max_val - v|
      ≤ (max_val - min_val) / ((2 ^ bits - 1 : ℕ) : ℚ) := by
  have hRpos : (0 : ℚ) < max_val - min_val := by linarith
  have hMpos : 0 < 2 ^ bits - 1 := by
    have h2 : 2 ≤ 2 ^ bits := by
      calc 2 = 2 ^ 1 := (pow_one 2).symm
      _ ≤ 2 ^ bits := Nat.pow_le_pow_right (by norm_num) hbpos
    omega
  have hMq : (0 : ℚ) < ((2 ^ bits - 1 : ℕ) : ℚ) := by exact_mod_cast hMpos
  have hn0 : 0 ≤ (v - min_val) / (max_val - min_val) := div_nonneg (by linarith) hRpos.le
  have hn1 : (v - min_val) / (max_val - min_val) ≤ 1 := by
    rw [div_le_one hRpos]; linarith
  have hclip : np_clip ((v - min_val) / (max_val - min_val)) 0 1
      = (v - min_val) / (max_val - min_val) := by
    rw [np_clip, max_eq_left hn0, min_eq_left hn1]
  have ha0 : 0 ≤ (v - min_val) / (max_val - min_val) * ((2 ^ bits - 1 : ℕ) : ℚ) :=
    mul_nonneg hn0 hMq.le
  have hfl0 : 0 ≤ ⌊(v - min_val) / (max_val - min_val) * ((2 ^ bits - 1 : ℕ) : ℚ)⌋ :=
    Int.floor_nonneg.mpr ha0
  have hIM : (⌊(v - min_val) / (max_val - min_val) * ((2 ^ bits - 1 : ℕ) : ℚ)⌋).toNat
      ≤ 2 ^ bits - 1 := by
    have h1 : (v - min_val) / (max_val - min_val) * ((2 ^ bits - 1 : ℕ) : ℚ)
        ≤ ((2 ^ bits - 1 : ℕ) : ℚ) := by nlinarith
    have h2 : ⌊(v - min_val) / (max_val - min_val) * ((2 ^ bits - 1 : ℕ) : ℚ)⌋
        ≤ ((2 ^ bits - 1 : ℕ) : ℤ) := by
      have h3 := Int.floor_le_floor h1
      rw [Int.floor_natCast] at h3
      exact h3
    exact Int.toNat_le.mpr h2
  have hIlt : (⌊(v - min_val) / (max_val - min_val) * ((2 ^ bits - 1 : ℕ) : ℚ)⌋).toNat
      < 2 ^ bits := by omega
  have henc : encode_parameter v min_val max_val bits =
      nat_to_bits (⌊(v - min_val) / (max_val - min_val) * ((2 ^ bits - 1 : ℕ) : ℚ)⌋).toNat
        bits := by
    simp only [encode_parameter, hclip]
  have hdec : decode_parameter (encode_parameter v min_val max_val bits) min_val max_val
      = min_val +
        (((⌊(v - min_val) / (max_val - min_val) * ((2 ^ bits - 1 : ℕ) : ℚ)⌋).toNat : ℚ)
            / ((2 ^ bits - 1 : ℕ) : ℚ)) * (max_val - min_val) := by
    rw [henc]
    simp only [decode_parameter, nat_to_bits_length, bits_to_nat_nat_to_bits _ _ hIlt]
    rw [if_pos hMpos]
  have hItoQ : ((⌊(v - min_val) / (max_val - min_val) * ((2 ^ bits - 1 : ℕ) : ℚ)⌋).toNat : ℚ)
      = ((⌊(v - min_val) / (max_val - min_val) * ((2 ^ bits - 1 : ℕ) : ℚ)⌋ : ℤ) : ℚ) := by
    exact_mod_cast congrArg (fun z : ℤ => (z : ℚ)) (Int.toNat_of_nonneg hfl0)
  have key : decode_parameter (encode_parameter v min_val max_val bits) min_val max_val - v
      = (((⌊(v - min_val) / (max_val - min_val) * ((2 ^ bits - 1 : ℕ) : ℚ)⌋ : ℤ) : ℚ)
          - (v - min_val) / (max_val - min_val) * ((2 ^ bits - 1 : ℕ) : ℚ))
        * (max_val - min_val) / ((2 ^ bits - 1 : ℕ) : ℚ) := by
    rw [hdec, hItoQ]
    have hA : (v - min_val) / (max_val - min_val) * ((2 ^ bits - 1 : ℕ) : ℚ)
        * (max_val - min_val) / ((2 ^ bits - 1 : ℕ) : ℚ) = v - min_val := by
      rw [div_mul_eq_mul_div, div_mul_eq_mul_div, mul_div_assoc, mul_div_assoc]
      rw [div_self hRpos.ne', one_div, mul_assoc, mul_inv_cancel₀ hMq.ne', mul_one]
    generalize ((⌊(v - min_val) / (max_val - min_val) * ((2 ^ bits - 1 : ℕ) : ℚ)⌋ : ℤ) : ℚ) = F
    rw [sub_mul, sub_div, hA]
    ring
  rw [key, abs_div, abs_of_pos hMq, abs_mul, abs_of_pos hRpos]
  apply (div_le_div_right hMq).mpr
  have habs : |(((⌊(v - min_val) / (max_val - min_val) * ((2 ^ bits - 1 : ℕ) : ℚ)⌋ : ℤ) : ℚ)
      - (v - min_val) / (max_val - min_val) * ((2 ^ bits - 1 : ℕ) : ℚ))| ≤ 1 := by
    apply abs_le.mpr
    constructor
    · linarith [Int.lt_floor_add_one
        ((v - min_val) / (max_val - min_val) * ((2 ^ bits - 1 : ℕ) : ℚ))]
    · linarith [Int.floor_le
        ((v - min_val) / (max_val - min_val) * ((2 ^ bits - 1 : ℕ) : ℚ))]
  nlinarith [habs, hRpos]

/-- C3: for every value v in [min, max] and the bit width the optimizer
derives from the configured precision, decoding the encoding of v recovers v
to within twice the precision. -/
theorem C3_encode_decode_roundtrip (v min_val max_val precision : ℚ) (bits : ℕ)
    (hprec : 0 < precision) (hrange : min_val < max_val)
    (hlo : min_val ≤ v) (hhi : v ≤ max_val)
    (hbits : bits = calculate_bits min_val max_val precision) :
    |decode_parameter (encode_parameter v min_val max_val bits) min_val max_val - v|
      ≤ 2 * precision := by
  have hRpos : (0 : ℚ) < max_val - min_val := by linarith
  have hbits8 : 8 ≤ bits := by
    rw [hbits]
    simp only [calculate_bits]
    exact le_max_right _ _
  have hbpos : 0 < bits := by omega
  have h2bits : (256 : ℕ) ≤ 2 ^ bits := by
    calc (256 : ℕ) = 2 ^ 8 := by norm_num
    _ ≤ 2 ^ bits := Nat.pow_le_pow_right (by norm_num) hbits8
  have hM255 : (255 : ℕ) ≤ 2 ^ bits - 1 := by omega
  have hM255q : (255 : ℚ) ≤ ((2 ^ bits - 1 : ℕ) : ℚ) := by exact_mod_cast hM255
  have hMq : (0 : ℚ) < ((2 ^ bits - 1 : ℕ) : ℚ) := by linarith
  have hxpos : (0 : ℚ) < (max_val - min_val) / precision := div_pos hRpos hprec
  have hclog : (max_val - min_val) / precision ≤ ((2 ^ bits : ℕ) : ℚ) := by
    have h1 : (max_val - min_val) / precision
        ≤ (⌈(max_val - min_val) / precision⌉₊ : ℚ) := Nat.le_ceil _
    have h2 : ⌈(max_val - min_val) / precision⌉₊ ≤ 2 ^ bits := by
      rw [hbits]
      simp only [calculate_bits]
      calc ⌈(max_val - min_val) / precision⌉₊
          ≤ 2 ^ Nat.clog 2 ⌈(max_val - min_val) / precision⌉₊ :=
            Nat.le_pow_clog (by norm_num) _
      _ ≤ 2 ^ max (Nat.clog 2 ⌈(max_val - min_val) / precision⌉₊) 8 :=
            Nat.pow_le_pow_right (by norm_num) (le_max_left _ _)
    calc (max_val - min_val) / precision
        ≤ (⌈(max_val - min_val) / precision⌉₊ : ℚ) := h1
    _ ≤ ((2 ^ bits : ℕ) : ℚ) := by exact_mod_cast h2
  have hMx : (max_val - min_val) / precision - 1 ≤ ((2 ^ bits - 1 : ℕ) : ℚ) := by
    have hcast : ((2 ^ bits - 1 : ℕ) : ℚ) = ((2 ^ bits : ℕ) : ℚ) - 1 := by
      have h1 : (1 : ℕ) ≤ 2 ^ bits := Nat.one_le_two_pow
      push_cast [Nat.cast_sub h1]
      ring
    rw [hcast]
    linarith
  have hstep : (max_val - min_val) / ((2 ^ bits - 1 : ℕ) : ℚ) ≤ 2 * precision := by
    rw [div_le_iff hMq]
    by_cases hx : (max_val - min_val) / precision ≤ 255
    · have hR255 : max_val - min_val ≤ 255 * precision := by
        rw [div_le_iff hprec] at hx
        linarith
      nlinarith
    · push_neg at hx
      have hReq : max_val - min_val = (max_val - min_val) / precision * precision := by
        field_simp
      nlinarith [mul_le_mul_of_nonneg_left hMx (le_of_lt (mul_pos (by norm_num : (0:ℚ) < 2) hprec))]
  calc |decode_parameter (encode_parameter v min_val max_val bits) min_val max_val - v|
      ≤ (max_val - min_val) / ((2 ^ bits - 1 : ℕ) : ℚ) :=
        decode_encode_error_bound v min_val max_val bits hrange hlo hhi hbpos
  _ ≤ 2 * precision := hstep

/-- Witness for C3: range [0, 1], precision 1/4 and value 1/3, with the bit
width the optimizer derives for that range and precision. -/
theorem C3_witness :
    ((0 : ℚ) < 1 / 4) ∧ ((0 : ℚ) < 1) ∧ ((0 : ℚ) ≤ 1 / 3) ∧ ((1 / 3 : ℚ) ≤ 1) ∧
    |decode_parameter (encode_parameter (1 / 3) 0 1 (calculate_bits 0 1 (1 / 4))) 0 1
      - 1 / 3| ≤ 2 * (1 / 4) :=
  ⟨by norm_num, by norm_num, by norm_num, by norm_num,
   C3_encode_decode_roundtrip (1 / 3) 0 1 (1 / 4) (calculate_bits 0 1 (1 / 4))
     (by norm_num) (by norm_num) (by norm_num) (by norm_num) rfl⟩

end AutoParking
